import Mathlib

/-!
Shallow embedding of `read_pgn.py`: a chess-game feature extractor.

The Python file extracts positional features from a chess board after
replaying a bounded prefix of each game in a PGN stream.  Board-state
queries that the Python code delegates to the python-chess library
(piece lookup, attacker computation, king lookup) are embedded
concretely below following the semantics of that library; move
application and legal-move counting, which the scanner treats as an
opaque rules-engine collaborator, are parameters of the scanner
(`push`) and a field of the board (`legalMovesCount`).

Python dictionaries with pairwise-distinct insertion-ordered keys are
embedded as association lists (`List (String × _)`); `dict.update`
with fresh keys is list append.
-/

namespace ReadPgn

/-- Piece colors, as in python-chess (`chess.WHITE`, `chess.BLACK`). -/
inductive Color where
  | white
  | black
deriving DecidableEq, Repr

/-- The opposing color; python-chess `not color`. -/
def Color.other : Color → Color
  | .white => .black
  | .black => .white

/-- Piece types, as in python-chess. -/
inductive PieceType where
  | pawn
  | knight
  | bishop
  | rook
  | queen
  | king
deriving DecidableEq, Repr

/-- A piece: type and color, as in python-chess `chess.Piece`. -/
structure Piece where
  piece_type : PieceType
  color : Color
deriving DecidableEq, Repr

/-- A board position.  `pieceAt s` embeds `board.piece_at(s)` for squares
`0..63` (square index = rank * 8 + file, as in python-chess); `turn`
embeds `board.turn`; `legalMovesCount` embeds the rules-engine oracle
`board.legal_moves.count()`, which the Python code reads but never
computes itself. -/
structure Board where
  pieceAt : Nat → Option Piece
  turn : Color
  legalMovesCount : Nat

/-- Embeds `chess.square(file_index, rank_index) = rank_index * 8 + file_index`. -/
def square (f r : Nat) : Nat := r * 8 + f

/-- Embeds `chess.square_file(s)`. -/
def square_file (s : Nat) : Nat := s % 8

/-- Embeds `chess.square_rank(s)`. -/
def square_rank (s : Nat) : Nat := s / 8

/-- The piece-value table of `get_material_features` (lines 10-11):
pawn=1, knight=3, bishop=3, rook=5, queen=9, king=0. -/
def piece_values : PieceType → Int
  | .pawn => 1
  | .knight => 3
  | .bishop => 3
  | .rook => 5
  | .queen => 9
  | .king => 0

/-- Sum of piece values of the given color over the whole board: embeds
`sum(piece_values[p.piece_type] for p in board.piece_map().values() if p.color == c)`. -/
def materialOf (b : Board) (c : Color) : Int :=
  ((List.range 64).map (fun s =>
    match b.pieceAt s with
    | some p => if p.color = c then piece_values p.piece_type else 0
    | none => 0)).sum

/-- Embeds `get_material_features` (lines 8-20). -/
def get_material_features (b : Board) : List (String × Int) :=
  [("white_material", materialOf b .white),
   ("black_material", materialOf b .black),
   ("material_diff", materialOf b .white - materialOf b .black)]

/-- Embeds `chess.piece_name`. -/
def piece_name : PieceType → String
  | .pawn => "pawn"
  | .knight => "knight"
  | .bishop => "bishop"
  | .rook => "rook"
  | .queen => "queen"
  | .king => "king"

/-- Embeds `len(board.pieces(piece_type, color))`: the number of squares
holding a piece of the given type and color. -/
def countPieces (b : Board) (pt : PieceType) (c : Color) : Nat :=
  ((List.range 64).filter (fun s => b.pieceAt s == some ⟨pt, c⟩)).length

/-- Embeds `get_piece_count_features` (lines 22-31): counts for each
non-king piece type, keys built per color in loop order. -/
def get_piece_count_features (b : Board) : List (String × Int) :=
  ([PieceType.pawn, .knight, .bishop, .rook, .queen]).flatMap (fun pt =>
    [("white_" ++ piece_name pt ++ "s", (countPieces b pt .white : Int)),
     ("black_" ++ piece_name pt ++ "s", (countPieces b pt .black : Int))])

/-- Tests whether all squares strictly between a source square and a
target offset by `(df, dr)` are empty; this is the blocking rule of
sliding-piece attacks in python-chess attack generation. -/
def pathClear (b : Board) (src : Nat) (df dr : Int) : Bool :=
  let n := max df.natAbs dr.natAbs
  let sf : Int := if df > 0 then 1 else if df < 0 then -1 else 0
  let sr : Int := if dr > 0 then 1 else if dr < 0 then -1 else 0
  (List.range (n - 1)).all (fun i =>
    b.pieceAt ((((square_rank src : Int) + (i + 1) * sr) * 8 +
                ((square_file src : Int) + (i + 1) * sf)).toNat) == none)

/-- Whether the piece `p` standing on `src` attacks `dst`, under the
python-chess attack semantics used by `board.attackers` (geometric
attack patterns with sliding pieces blocked by any occupied square;
pins are ignored). -/
def pieceAttacks (b : Board) (p : Piece) (src dst : Nat) : Bool :=
  let df : Int := (square_file dst : Int) - (square_file src : Int)
  let dr : Int := (square_rank dst : Int) - (square_rank src : Int)
  match p.piece_type with
  | .pawn =>
      (if p.color = .white then dr == 1 else dr == -1) && (df == 1 || df == -1)
  | .knight =>
      (df.natAbs == 1 && dr.natAbs == 2) || (df.natAbs == 2 && dr.natAbs == 1)
  | .king =>
      max df.natAbs dr.natAbs == 1
  | .bishop =>
      df.natAbs == dr.natAbs && df != 0 && pathClear b src df dr
  | .rook =>
      ((df == 0 && dr != 0) || (dr == 0 && df != 0)) && pathClear b src df dr
  | .queen =>
      (df.natAbs == dr.natAbs && df != 0 ||
       (df == 0 && dr != 0) || (dr == 0 && df != 0)) && pathClear b src df dr

/-- Embeds `board.attackers(c, sq)`: the squares holding a piece of
color `c` that attacks `sq`.  The Python code only takes `len` of this. -/
def attackers (b : Board) (c : Color) (sq : Nat) : List Nat :=
  (List.range 64).filter (fun s =>
    match b.pieceAt s with
    | some p => p.color == c && pieceAttacks b p s sq
    | none => false)

/-- Embeds `board.king(c)` of python-chess: the highest square holding a
king of color `c` (msb of the king mask), or `none` when there is no
such king. -/
def kingSquare (b : Board) (c : Color) : Option Nat :=
  ((List.range 64).filter (fun s => b.pieceAt s == some ⟨PieceType.king, c⟩)).max?

/-- Whether `b.pieceAt s` is a pawn of color `c`: embeds the test
`piece and piece.piece_type == chess.PAWN and piece.color == c`
of lines 57 and 83. -/
def isColorPawn (b : Board) (c : Color) (s : Nat) : Bool :=
  match b.pieceAt s with
  | some p => p.piece_type == PieceType.pawn && p.color == c
  | none => false

/-- Inner rank loop of the pawn-shield scan (lines 54-59 and 80-85):
walk the given ranks in order in file `f`; on the first same-color pawn
add 1 and stop (the break), otherwise continue; 0 when none is found. -/
def scanRanks (b : Board) (c : Color) (f : Nat) : List Nat → Nat
  | [] => 0
  | r :: rs => if isColorPawn b c (square f r) then 1 else scanRanks b c f rs

/-- The ranks the shield scan walks for a king on rank `kr`: for white
`range(kr + 1, 8)` (toward rank 8), for black `range(kr - 1, -1, -1)`
(toward rank 1), as in lines 54 and 80. -/
def shieldRanks (c : Color) (kr : Nat) : List Nat :=
  match c with
  | .white => List.range' (kr + 1) (7 - kr)
  | .black => (List.range kr).reverse

/-- The pawn-shield count for a king of color `c` on square `ksq`
(lines 44-61 and 70-87): for each file offset in `[-1, 0, 1]`, if the
resulting file is on the board, scan the shield ranks and count at most
one pawn; sum the three contributions. -/
def pawnShield (b : Board) (c : Color) (ksq : Nat) : Nat :=
  let kf : Int := (square_file ksq : Int)
  let kr := square_rank ksq
  (([-1, 0, 1] : List Int).map (fun off =>
    let cf := kf + off
    if 0 ≤ cf ∧ cf ≤ 7 then scanRanks b c cf.toNat (shieldRanks c kr) else 0)).sum

/-- Embeds `get_king_safety_features` (lines 33-92).  The Python guards
are `if white_king_square:` and `if black_king_square:`, which are
truthiness tests on an optional square index: they take the else
(all-zero) branch both when the king is absent (None) and when the king
square index is 0, i.e. the a1 square. -/
def get_king_safety_features (b : Board) : List (String × Int) :=
  (match kingSquare b .white with
   | some s =>
       if s ≠ 0 then
         [("white_king_attackers", ((attackers b .black s).length : Int)),
          ("white_pawn_shield", (pawnShield b .white s : Int))]
       else
         [("white_king_attackers", 0), ("white_pawn_shield", 0)]
   | none => [("white_king_attackers", 0), ("white_pawn_shield", 0)])
  ++
  (match kingSquare b .black with
   | some s =>
       if s ≠ 0 then
         [("black_king_attackers", ((attackers b .white s).length : Int)),
          ("black_pawn_shield", (pawnShield b .black s : Int))]
       else
         [("black_king_attackers", 0), ("black_pawn_shield", 0)]
   | none => [("black_king_attackers", 0), ("black_pawn_shield", 0)])

/-- Embeds python-chess `board.is_check()`: the king of the side to move
exists and is attacked by the opponent. -/
def is_check (b : Board) : Bool :=
  match kingSquare b b.turn with
  | none => false
  | some s => (attackers b b.turn.other s).length != 0

/-- Embeds `get_mobility_features` (lines 94-99); the legal-move count
is the rules-engine oracle carried by the board. -/
def get_mobility_features (b : Board) : List (String × Int) :=
  [("to_move", if b.turn = Color.white then 1 else 0),
   ("legal_moves", (b.legalMovesCount : Int))]

/-- Embeds `get_game_state_features` (lines 101-107); checkmate is
check with no legal move, stalemate is no check and no legal move, per
the python-chess predicates the code calls. -/
def get_game_state_features (b : Board) : List (String × Int) :=
  [("is_check", if is_check b then 1 else 0),
   ("is_checkmate", if is_check b && b.legalMovesCount == 0 then 1 else 0),
   ("is_stalemate", if !is_check b && b.legalMovesCount == 0 then 1 else 0)]

/-- Embeds `extract_board_features` (lines 109-120): key-wise union of
the five feature families; all keys are distinct, so the dict updates
are list appends. -/
def extract_board_features (b : Board) : List (String × Int) :=
  get_material_features b ++ get_piece_count_features b ++
  get_king_safety_features b ++ get_mobility_features b ++
  get_game_state_features b

/-- Whitespace characters stripped by Python `int(str)` (ASCII range). -/
def isPySpace (c : Char) : Bool :=
  c == ' ' || c == '\t' || c == '\n' || c == '\x0b' || c == '\x0c' || c == '\r'

/-- Strip leading and trailing whitespace, as Python `int(str)` does. -/
def stripChars (s : List Char) : List Char :=
  ((s.dropWhile isPySpace).reverse.dropWhile isPySpace).reverse

/-- Numeric value of an ASCII digit character. -/
def digitVal (c : Char) : Nat := c.toNat - 48

/-- Digit tail of a Python integer literal: digits, with single
underscores allowed between digits, accumulated into `acc`. -/
def parseDigitsAux : Nat → List Char → Option Nat
  | acc, [] => some acc
  | acc, c :: cs =>
    if c.isDigit then parseDigitsAux (acc * 10 + digitVal c) cs
    else if c == '_' then
      match cs with
      | [] => none
      | d :: ds => if d.isDigit then parseDigitsAux (acc * 10 + digitVal d) ds else none
    else none

/-- Unsigned digit string of a Python integer literal: at least one
digit, then `parseDigitsAux`. -/
def parseDigits : List Char → Option Nat
  | [] => none
  | c :: cs => if c.isDigit then parseDigitsAux (digitVal c) cs else none

/-- Embeds Python `int(s)` on strings (decimal): surrounding whitespace
stripped, optional sign, non-empty digit string; `none` models the
`ValueError` caught at lines 165-169. -/
def pythonInt (s : String) : Option Int :=
  match stripChars s.toList with
  | '+' :: rest => (parseDigits rest).map (fun n => (n : Int))
  | '-' :: rest => (parseDigits rest).map (fun n => -(n : Int))
  | rest => (parseDigits rest).map (fun n => (n : Int))

/-- A parsed game record, as delivered by the game-record reader
collaborator (`chess.pgn.read_game`): the headers the scanner reads
(`none` models an absent header) and the mainline move list.  `M` is
the abstract move type of the rules engine. -/
structure Game (M : Type) where
  result : Option String
  whiteElo : Option String
  blackElo : Option String
  moves : List M

/-- A dataset row: a feature mapping, insertion-ordered. -/
abbrev Row : Type := List (String × Rat)

/-- Embeds the result-to-target mapping of lines 148-155: white win 1,
black win 0, draw one half, anything else is the final `continue`. -/
def resultTarget (res : String) : Option Rat :=
  if res = "1-0" then some 1
  else if res = "0-1" then some 0
  else if res = "1/2-1/2" then some (1 / 2)
  else none

/-- Embeds the replay loop of lines 173-179: walk the move list, break
once the half-move count has reached `limit`, otherwise push the move
and count it; returns the final board and half-move count. -/
def replayAux {M : Type} (push : Board → M → Board) (limit : Nat) :
    List M → Board → Nat → Board × Nat
  | [], b, c => (b, c)
  | m :: ms, b, c =>
    if limit ≤ c then (b, c) else replayAux push limit ms (push b m) (c + 1)

/-- Embeds one row of lines 186-192: the extracted board features (as
rationals) followed by the rating metadata and the outcome label, in
insertion order. -/
def mkRow (b : Board) (whiteElo blackElo : Int) (target : Rat) : Row :=
  (extract_board_features b).map (fun p => (p.1, (p.2 : Rat)))
  ++ [("white_elo", (whiteElo : Rat)), ("black_elo", (blackElo : Rat)),
      ("elo_diff", ((whiteElo - blackElo : Int) : Rat)), ("result", target)]

/-- Embeds the per-game body of the scanner loop, lines 143-192: the
result filter, the rating filters and parses, the bounded replay, the
too-short filter, and row construction; `none` is any `continue`. -/
def processGame {M : Type} (push : Board → M → Board) (initB : Game M → Board)
    (targetMove : Nat) (g : Game M) : Option Row :=
  let result := g.result.getD "*"
  if result = "*" then none
  else
    match resultTarget result with
    | none => none
    | some target =>
      let we := g.whiteElo.getD ""
      let be := g.blackElo.getD ""
      if we = "" || be = "" || we = "?" || be = "?" then none
      else
        match pythonInt we, pythonInt be with
        | some w, some b =>
          let rp := replayAux push (targetMove * 2) g.moves (initB g) 0
          if rp.2 < targetMove * 2 then none
          else some (mkRow rp.1 w b target)
        | _, _ => none

/-- Embeds the acceptance-cap test of line 200,
`if max_games and games_processed >= max_games`: Python truthiness
makes both `None` and `0` disable the cap. -/
def capHit : Option Nat → Nat → Bool
  | none, _ => false
  | some m, p => !(m == 0) && decide (m ≤ p)

/-- Embeds the scanner loop of lines 137-201 over the remaining games,
carrying `games_processed`: skipped games leave the count unchanged;
an accepted game appends its row, bumps the count, and stops the scan
when the cap is hit. -/
def processPgnFileAux {M : Type} (push : Board → M → Board) (initB : Game M → Board)
    (targetMove : Nat) (maxGames : Option Nat) : List (Game M) → Nat → List Row
  | [], _ => []
  | g :: rest, processed =>
    match processGame push initB targetMove g with
    | none => processPgnFileAux push initB targetMove maxGames rest processed
    | some row =>
      if capHit maxGames (processed + 1) then [row]
      else row :: processPgnFileAux push initB targetMove maxGames rest (processed + 1)

/-- Embeds `process_pgn_file` (lines 122-207) on an already-parsed game
stream (the file decompression and PGN parsing are collaborator I/O):
scan the games in order starting from a zero accepted count. -/
def processPgnFile {M : Type} (push : Board → M → Board) (initB : Game M → Board)
    (games : List (Game M)) (targetMove : Nat) (maxGames : Option Nat) : List Row :=
  processPgnFileAux push initB targetMove maxGames games 0

/-- The standard starting position: python-chess `chess.Board()`, with
the rules-engine legal-move count 20 for the side to move. -/
def startBoard : Board where
  pieceAt := fun s =>
    if s = 0 ∨ s = 7 then some ⟨.rook, .white⟩
    else if s = 1 ∨ s = 6 then some ⟨.knight, .white⟩
    else if s = 2 ∨ s = 5 then some ⟨.bishop, .white⟩
    else if s = 3 then some ⟨.queen, .white⟩
    else if s = 4 then some ⟨.king, .white⟩
    else if 8 ≤ s ∧ s ≤ 15 then some ⟨.pawn, .white⟩
    else if 48 ≤ s ∧ s ≤ 55 then some ⟨.pawn, .black⟩
    else if s = 56 ∨ s = 63 then some ⟨.rook, .black⟩
    else if s = 57 ∨ s = 62 then some ⟨.knight, .black⟩
    else if s = 58 ∨ s = 61 then some ⟨.bishop, .black⟩
    else if s = 59 then some ⟨.queen, .black⟩
    else if s = 60 then some ⟨.king, .black⟩
    else none
  turn := .white
  legalMovesCount := 20

/-- A position with the white king on a1 (square 0), a black rook on b1
attacking it, and the black king on e8. -/
def bugBoard : Board where
  pieceAt := fun s =>
    if s = 0 then some ⟨.king, .white⟩
    else if s = 1 then some ⟨.rook, .black⟩
    else if s = 60 then some ⟨.king, .black⟩
    else none
  turn := .white
  legalMovesCount := 1

/-- The fixed key schema of `extract_board_features`, in insertion order. -/
def featureKeys : List String :=
  ["white_material", "black_material", "material_diff",
   "white_pawns", "black_pawns", "white_knights", "black_knights",
   "white_bishops", "black_bishops", "white_rooks", "black_rooks",
   "white_queens", "black_queens",
   "white_king_attackers", "white_pawn_shield",
   "black_king_attackers", "black_pawn_shield",
   "to_move", "legal_moves",
   "is_check", "is_checkmate", "is_stalemate"]

/-- The white pawn-shield feature value as the code computes it: the
scan result when the king square passes the Python truthiness guard,
0 otherwise. -/
def whiteShieldVal (b : Board) : Int :=
  match kingSquare b .white with
  | some s => if s ≠ 0 then (pawnShield b .white s : Int) else 0
  | none => 0

/-- The black pawn-shield feature value as the code computes it. -/
def blackShieldVal (b : Board) : Int :=
  match kingSquare b .black with
  | some s => if s ≠ 0 then (pawnShield b .black s : Int) else 0
  | none => 0

/-- A board with no pieces at all, used as a degenerate rules-engine
stub when exercising the scanner. -/
def emptyBoard : Board where
  pieceAt := fun _ => none
  turn := .white
  legalMovesCount := 0

/-- A trivial rules-engine move application for scanner tests: moves
carry no information and leave the board unchanged. -/
def pushU : Board → Unit → Board := fun b _ => b

/-- A trivial initial-board collaborator for scanner tests. -/
def initU : Game Unit → Board := fun _ => emptyBoard

/-- A qualifying game: white win, valid ratings, two half-moves. -/
def g0 : Game Unit := ⟨some "1-0", some "1500", some "1400", [(), ()]⟩

/-- A game that is one half-move too short. -/
def gShort : Game Unit := ⟨some "1-0", some "1500", some "1400", [()]⟩

/-- A game with the unfinished result marker. -/
def gStar : Game Unit := ⟨some "*", some "1500", some "1400", [(), ()]⟩

/-- A game with the placeholder rating for white. -/
def gNoElo : Game Unit := ⟨some "0-1", some "?", some "1400", [(), ()]⟩

/-- A qualifying drawn game. -/
def gDraw : Game Unit := ⟨some "1/2-1/2", some "1500", some "1600", [(), ()]⟩

/-- The row the scanner emits for `g0` under the trivial rules engine. -/
def r0 : Row := mkRow emptyBoard 1500 1400 1

/-! Helper lemmas. -/

lemma king_safety_keys (b : Board) :
    (get_king_safety_features b).map Prod.fst =
      ["white_king_attackers", "white_pawn_shield",
       "black_king_attackers", "black_pawn_shield"] := by
  unfold get_king_safety_features
  cases kingSquare b .white <;> cases kingSquare b .black <;>
    simp <;> split_ifs <;> simp

lemma extract_keys (b : Board) :
    (extract_board_features b).map Prod.fst = featureKeys := by
  unfold extract_board_features featureKeys
  simp [List.map_append, king_safety_keys, get_material_features,
    get_piece_count_features, get_mobility_features, get_game_state_features,
    piece_name]

lemma scanRanks_le_one (b : Board) (c : Color) (f : Nat) :
    ∀ l : List Nat, scanRanks b c f l ≤ 1 := by
  intro l
  induction l with
  | nil => simp [scanRanks]
  | cons r rs ih => simp only [scanRanks]; split <;> omega

lemma pawnShield_le_three (b : Board) (c : Color) (ksq : Nat) :
    pawnShield b c ksq ≤ 3 := by
  unfold pawnShield
  simp only [List.map_cons, List.map_nil, List.sum_cons, List.sum_nil]
  have h1 : ∀ (cond : Prop) [Decidable cond] (f : Nat),
      (if cond then scanRanks b c f (shieldRanks c (square_rank ksq)) else 0) ≤ 1 := by
    intro cond _ f
    split
    · exact scanRanks_le_one b c f _
    · omega
  have ha := h1 (0 ≤ (square_file ksq : Int) + -1 ∧ (square_file ksq : Int) + -1 ≤ 7)
    (((square_file ksq : Int) + -1).toNat)
  have hb := h1 (0 ≤ (square_file ksq : Int) + 0 ∧ (square_file ksq : Int) + 0 ≤ 7)
    (((square_file ksq : Int) + 0).toNat)
  have hc := h1 (0 ≤ (square_file ksq : Int) + 1 ∧ (square_file ksq : Int) + 1 ≤ 7)
    (((square_file ksq : Int) + 1).toNat)
  omega

lemma lookup_white_shield (b : Board) :
    List.lookup "white_pawn_shield" (extract_board_features b) = some (whiteShieldVal b) := by
  unfold extract_board_features whiteShieldVal get_king_safety_features
  cases kingSquare b .white <;> cases kingSquare b .black <;>
    simp [get_material_features, get_piece_count_features, List.lookup, piece_name] <;>
    split_ifs <;> simp [List.lookup]

lemma lookup_black_shield (b : Board) :
    List.lookup "black_pawn_shield" (extract_board_features b) = some (blackShieldVal b) := by
  unfold extract_board_features blackShieldVal get_king_safety_features
  cases kingSquare b .white <;> cases kingSquare b .black <;>
    simp [get_material_features, get_piece_count_features, List.lookup, piece_name] <;>
    split_ifs <;> simp [List.lookup]

lemma whiteShieldVal_bounds (b : Board) : 0 ≤ whiteShieldVal b ∧ whiteShieldVal b ≤ 3 := by
  unfold whiteShieldVal
  cases kingSquare b .white with
  | none => simp
  | some s =>
    simp only
    split
    · have := pawnShield_le_three b .white s
      constructor
      · exact Int.ofNat_nonneg _
      · exact_mod_cast this
    · simp

lemma blackShieldVal_bounds (b : Board) : 0 ≤ blackShieldVal b ∧ blackShieldVal b ≤ 3 := by
  unfold blackShieldVal
  cases kingSquare b .black with
  | none => simp
  | some s =>
    simp only
    split
    · have := pawnShield_le_three b .black s
      constructor
      · exact Int.ofNat_nonneg _
      · exact_mod_cast this
    · simp

lemma lookup_append_right {β : Type} (k : String) (l1 l2 : List (String × β))
    (h : ∀ a ∈ l1.map Prod.fst, a ≠ k) :
    List.lookup k (l1 ++ l2) = List.lookup k l2 := by
  induction l1 with
  | nil => rfl
  | cons q tl ih =>
    obtain ⟨qk, qv⟩ := q
    have hq : qk ≠ k := h qk (by simp)
    have hk : (k == qk) = false := by
      simp only [beq_eq_false_iff_ne, ne_eq]
      exact fun he => hq he.symm
    simp only [List.cons_append, List.lookup, hk]
    exact ih (fun a ha => h a (by simp [ha]))

lemma lookup_result_mkRow (b : Board) (w bl : Int) (t : Rat) :
    List.lookup "result" (mkRow b w bl t) = some t := by
  unfold mkRow
  rw [lookup_append_right]
  · simp [List.lookup]
  · intro a ha
    rw [List.map_map] at ha
    have hmem : a ∈ (extract_board_features b).map Prod.fst := by
      simpa using ha
    rw [extract_keys] at hmem
    intro he
    subst he
    revert hmem
    decide

lemma replayAux_eq {M : Type} (push : Board → M → Board) (limit : Nat) :
    ∀ (ms : List M) (b : Board) (c : Nat), c ≤ limit →
      replayAux push limit ms b c =
        (List.foldl push b (ms.take (limit - c)), min limit (c + ms.length)) := by
  intro ms
  induction ms with
  | nil =>
    intro b c h
    simp [replayAux]
    omega
  | cons m ms ih =>
    intro b c h
    simp only [replayAux]
    split
    · have hc : c = limit := le_antisymm h (by assumption)
      subst hc
      simp
    · have hc : c + 1 ≤ limit := by omega
      rw [ih (push b m) (c + 1) hc]
      have hs : limit - c = (limit - (c + 1)) + 1 := by omega
      rw [hs, List.take_succ_cons]
      simp only [List.foldl_cons, List.length_cons, Prod.mk.injEq]
      exact ⟨trivial, by omega⟩

lemma processGame_some_inv {M : Type} {push : Board → M → Board} {initB : Game M → Board}
    {tm : Nat} {g : Game M} {r : Row}
    (h : processGame push initB tm g = some r) :
    g.result.getD "*" ≠ "*" ∧
    ∃ t, resultTarget (g.result.getD "*") = some t ∧
    g.whiteElo.getD "" ≠ "" ∧ g.blackElo.getD "" ≠ "" ∧
    g.whiteElo.getD "" ≠ "?" ∧ g.blackElo.getD "" ≠ "?" ∧
    ∃ w bl : Int, pythonInt (g.whiteElo.getD "") = some w ∧
      pythonInt (g.blackElo.getD "") = some bl ∧
      tm * 2 ≤ g.moves.length ∧
      r = mkRow (List.foldl push (initB g) (g.moves.take (tm * 2))) w bl t := by
  by_cases h1 : g.result.getD "*" = "*"
  · simp [processGame, h1] at h
  rcases hres : resultTarget (g.result.getD "*") with _ | t
  · simp [processGame, h1, hres] at h
  by_cases h2 : g.whiteElo.getD "" = ""
  · simp [processGame, h1, hres, h2] at h
  by_cases h3 : g.blackElo.getD "" = ""
  · simp [processGame, h1, hres, h2, h3] at h
  by_cases h4 : g.whiteElo.getD "" = "?"
  · simp [processGame, h1, hres, h2, h3, h4] at h
  by_cases h5 : g.blackElo.getD "" = "?"
  · simp [processGame, h1, hres, h2, h3, h4, h5] at h
  rcases hw : pythonInt (g.whiteElo.getD "") with _ | w
  · simp [processGame, h1, hres, h2, h3, h4, h5, hw] at h
  rcases hbl : pythonInt (g.blackElo.getD "") with _ | bl
  · simp [processGame, h1, hres, h2, h3, h4, h5, hw, hbl] at h
  have hrep := replayAux_eq push (tm * 2) g.moves (initB g) 0 (Nat.zero_le _)
  by_cases hlen : g.moves.length < tm * 2
  · have hcnt : (replayAux push (tm * 2) g.moves (initB g) 0).2 < tm * 2 := by
      rw [hrep]; simp; omega
    simp [processGame, h1, hres, h2, h3, h4, h5, hw, hbl, hcnt] at h
  · simp only [processGame, h1, hres, h2, h3, h4, h5, hw, hbl] at h
    rw [hrep] at h
    have hnc : ¬ (min (tm * 2) (0 + g.moves.length) < tm * 2) := by omega
    simp only [if_neg h1] at h
    simp [hnc] at h
    refine ⟨h1, t, rfl, h2, h3, h4, h5, w, bl, rfl, rfl, by omega, ?_⟩
    exact h.2.symm

lemma mem_processPgnFileAux {M : Type} (push : Board → M → Board) (initB : Game M → Board)
    (tm : Nat) (cap : Option Nat) :
    ∀ (games : List (Game M)) (p : Nat) (r : Row),
      r ∈ processPgnFileAux push initB tm cap games p →
      ∃ g ∈ games, processGame push initB tm g = some r := by
  intro games
  induction games with
  | nil => intro p r h; simp [processPgnFileAux] at h
  | cons g rest ih =>
    intro p r h
    simp only [processPgnFileAux] at h
    rcases hg : processGame push initB tm g with _ | row
    · simp only [hg] at h
      obtain ⟨g2, hg2, hr⟩ := ih p r h
      exact ⟨g2, List.mem_cons_of_mem _ hg2, hr⟩
    · simp only [hg] at h
      by_cases hcap : capHit cap (p + 1) = true
      · rw [if_pos hcap] at h
        have hr : r = row := by simpa using h
        subst hr
        exact ⟨g, List.mem_cons_self g rest, hg⟩
      · rw [if_neg hcap] at h
        rcases List.mem_cons.mp h with rfl | h
        · exact ⟨g, List.mem_cons_self g rest, hg⟩
        · obtain ⟨g2, hg2, hr⟩ := ih (p + 1) r h
          exact ⟨g2, List.mem_cons_of_mem _ hg2, hr⟩

lemma processPgnFileAux_skip {M : Type} (push : Board → M → Board) (initB : Game M → Board)
    (tm : Nat) (cap : Option Nat) (g : Game M) (rest : List (Game M)) (p : Nat)
    (hg : processGame push initB tm g = none) :
    processPgnFileAux push initB tm cap (g :: rest) p =
      processPgnFileAux push initB tm cap rest p := by
  simp only [processPgnFileAux, hg]

lemma processPgnFileAux_cap_zero {M : Type} (push : Board → M → Board)
    (initB : Game M → Board) (tm : Nat) :
    ∀ (games : List (Game M)) (p : Nat),
      processPgnFileAux push initB tm (some 0) games p =
        processPgnFileAux push initB tm none games p := by
  intro games
  induction games with
  | nil => intro p; rfl
  | cons g rest ih =>
    intro p
    simp only [processPgnFileAux]
    rcases hg : processGame push initB tm g with _ | row
    · exact ih p
    · simp [capHit, ih (p + 1)]

lemma processPgnFileAux_cap_take {M : Type} (push : Board → M → Board)
    (initB : Game M → Board) (tm : Nat) (m : Nat) :
    ∀ (games : List (Game M)) (p : Nat), p < m →
      processPgnFileAux push initB tm (some m) games p =
        (processPgnFileAux push initB tm none games p).take (m - p) := by
  intro games
  induction games with
  | nil => intro p _; simp [processPgnFileAux]
  | cons g rest ih =>
    intro p hp
    rcases hg : processGame push initB tm g with _ | row
    · rw [processPgnFileAux_skip push initB tm (some m) g rest p hg,
        processPgnFileAux_skip push initB tm none g rest p hg]
      exact ih p hp
    · have hrhs : processPgnFileAux push initB tm none (g :: rest) p =
          row :: processPgnFileAux push initB tm none rest (p + 1) := by
        simp [processPgnFileAux, hg, capHit]
      rw [hrhs]
      simp only [processPgnFileAux, hg]
      by_cases hcap : m ≤ p + 1
      · have hm1 : m = p + 1 := by omega
        subst hm1
        have hc : capHit (some (p + 1)) (p + 1) = true := by simp [capHit]
        rw [if_pos hc]
        have ht : p + 1 - p = 1 := by omega
        rw [ht]
        simp
      · have hp1 : p + 1 < m := by omega
        have hc : capHit (some m) (p + 1) = false := by
          simp [capHit]
          omega
        rw [hc]
        simp only [Bool.false_eq_true, if_false]
        have hs : m - p = (m - (p + 1)) + 1 := by omega
        rw [hs, List.take_succ_cons, ih (p + 1) hp1]

lemma processPgnFileAux_none_ne_nil {M : Type} (push : Board → M → Board)
    (initB : Game M → Board) (tm : Nat) :
    ∀ (games : List (Game M)) (p : Nat),
      (∃ g ∈ games, processGame push initB tm g ≠ none) →
      processPgnFileAux push initB tm none games p ≠ [] := by
  intro games
  induction games with
  | nil => intro p h; simp at h
  | cons g rest ih =>
    intro p h
    simp only [processPgnFileAux]
    rcases hg : processGame push initB tm g with _ | row
    · apply ih p
      obtain ⟨g2, hg2, hne⟩ := h
      rcases List.mem_cons.mp hg2 with rfl | hmem
      · exact absurd hg hne
      · exact ⟨g2, hmem, hne⟩
    · simp [capHit]


/-! Claim theorems. -/

/-- C1: the claim says the king-safety features of a color are computed
from that color king square whenever that color has a king on the
board, and default to 0 exactly when there is no such king.  The code
violates this: its guard is a Python truthiness test on the optional
square index, and square 0 (a1) is falsy.  On `bugBoard` the white king
is on the board on square 0 and has exactly one black attacker, yet the
emitted white attacker-count and pawn-shield features are the missing
king defaults 0. -/
theorem claim_C1_king_on_a1_bug :
    bugBoard.pieceAt 0 = some ⟨PieceType.king, Color.white⟩ ∧
    kingSquare bugBoard .white = some 0 ∧
    (attackers bugBoard .black 0).length = 1 ∧
    List.lookup "white_king_attackers" (get_king_safety_features bugBoard) = some 0 ∧
    List.lookup "white_pawn_shield" (get_king_safety_features bugBoard) = some 0 := by
  decide

/-- C2: replay applies moves from the initial position and stops after
exactly `target_move * 2` half-moves or at move-list exhaustion
(first conjunct: the replayed board is the fold of the first
`target_move * 2` moves and the half-move count is the minimum of the
limit and the list length); a game with fewer than `target_move * 2`
half-moves contributes no row (second conjunct); and every emitted row
is built from the position reached after exactly `target_move * 2`
half-moves (third conjunct). -/
theorem claim_C2_replay_snapshot {M : Type} (push : Board → M → Board)
    (initB : Game M → Board) (games : List (Game M)) (targetMove : Nat)
    (maxGames : Option Nat) :
    (∀ g : Game M,
        replayAux push (targetMove * 2) g.moves (initB g) 0 =
          (List.foldl push (initB g) (g.moves.take (targetMove * 2)),
           min (targetMove * 2) g.moves.length)) ∧
    (∀ g : Game M, g.moves.length < targetMove * 2 →
        processGame push initB targetMove g = none) ∧
    (∀ r ∈ processPgnFile push initB games targetMove maxGames,
        ∃ g ∈ games, targetMove * 2 ≤ g.moves.length ∧
          ∃ w bl t,
            r = mkRow (List.foldl push (initB g) (g.moves.take (targetMove * 2))) w bl t) := by
  refine ⟨?_, ?_, ?_⟩
  · intro g
    have h := replayAux_eq push (targetMove * 2) g.moves (initB g) 0 (Nat.zero_le _)
    simpa using h
  · intro g hlen
    cases hpg : processGame push initB targetMove g with
    | none => rfl
    | some r =>
      obtain ⟨-, t, -, -, -, -, -, w, bl, -, -, hge, -⟩ := processGame_some_inv hpg
      omega
  · intro r hr
    obtain ⟨g, hgmem, hpg⟩ := mem_processPgnFileAux push initB targetMove maxGames games 0 r hr
    obtain ⟨-, t, -, -, -, -, -, w, bl, hw, hbl, hlen, hrow⟩ := processGame_some_inv hpg
    exact ⟨g, hgmem, hlen, w, bl, t, hrow⟩

/-- Witness for C2: under the trivial rules engine, a one-half-move game
is skipped with target 1, and the row emitted for the two-half-move game
`g0` is built from the position after exactly two half-moves. -/
theorem claim_C2_replay_snapshot_witness :
    processGame pushU initU 1 gShort = none ∧
    (∃ g ∈ [g0], 1 * 2 ≤ g.moves.length ∧
      ∃ w bl t, r0 = mkRow (List.foldl pushU (initU g) (g.moves.take (1 * 2))) w bl t) :=
  ⟨(claim_C2_replay_snapshot pushU initU [g0] 1 none).2.1 gShort (by decide),
   (claim_C2_replay_snapshot pushU initU [g0] 1 none).2.2 r0 (by decide)⟩

/-- C3: a game whose result header is absent, the unfinished marker, or
any value other than the three valid outcomes contributes no row; every
emitted row carries the outcome label 1 for a white win, 0 for a black
win, one half for a draw. -/
theorem claim_C3_result_filter {M : Type} (push : Board → M → Board)
    (initB : Game M → Board) (games : List (Game M)) (targetMove : Nat)
    (maxGames : Option Nat) :
    (∀ g : Game M,
        (g.result = none ∨ g.result = some "*" ∨
          (g.result ≠ some "1-0" ∧ g.result ≠ some "0-1" ∧ g.result ≠ some "1/2-1/2")) →
        processGame push initB targetMove g = none) ∧
    (∀ r ∈ processPgnFile push initB games targetMove maxGames,
        ∃ g ∈ games,
          (g.result = some "1-0" ∧ List.lookup "result" r = some 1) ∨
          (g.result = some "0-1" ∧ List.lookup "result" r = some 0) ∨
          (g.result = some "1/2-1/2" ∧ List.lookup "result" r = some (1 / 2))) := by
  constructor
  · intro g hbad
    cases hpg : processGame push initB targetMove g with
    | none => rfl
    | some r =>
      obtain ⟨h1, t, hres, -⟩ := processGame_some_inv hpg
      exfalso
      rcases hbad with hb | hb | hb
      · rw [hb] at h1
        exact h1 rfl
      · rw [hb] at h1
        exact h1 rfl
      · rcases hgr : g.result with _ | res
        · rw [hgr] at h1
          exact h1 rfl
        · rw [hgr] at hb hres
          simp only [Option.getD_some] at hres
          unfold resultTarget at hres
          split_ifs at hres with hA hB hC
          · exact hb.1 (by rw [hA])
          · exact hb.2.1 (by rw [hB])
          · exact hb.2.2 (by rw [hC])
  · intro r hr
    obtain ⟨g, hgmem, hpg⟩ := mem_processPgnFileAux push initB targetMove maxGames games 0 r hr
    obtain ⟨h1, t, hres, -, -, -, -, w, bl, -, -, -, hrow⟩ := processGame_some_inv hpg
    refine ⟨g, hgmem, ?_⟩
    have hlook : List.lookup "result" r = some t := by
      rw [hrow]
      exact lookup_result_mkRow _ _ _ _
    rcases hgr : g.result with _ | res
    · rw [hgr] at h1
      exact absurd rfl h1
    · rw [hgr] at hres
      simp only [Option.getD_some] at hres
      unfold resultTarget at hres
      split_ifs at hres with hA hB hC
      · obtain rfl : (1 : Rat) = t := Option.some.inj hres
        exact Or.inl ⟨by rw [hA], hlook⟩
      · obtain rfl : (0 : Rat) = t := Option.some.inj hres
        exact Or.inr (Or.inl ⟨by rw [hB], hlook⟩)
      · obtain rfl : (1 / 2 : Rat) = t := Option.some.inj hres
        exact Or.inr (Or.inr ⟨by rw [hC], hlook⟩)

/-- Witness for C3: the unfinished game `gStar` contributes nothing, and
the row of the white-win game `g0` carries outcome label 1. -/
theorem claim_C3_result_filter_witness :
    processGame pushU initU 1 gStar = none ∧
    (∃ g ∈ [g0],
      (g.result = some "1-0" ∧ List.lookup "result" r0 = some 1) ∨
      (g.result = some "0-1" ∧ List.lookup "result" r0 = some 0) ∨
      (g.result = some "1/2-1/2" ∧ List.lookup "result" r0 = some (1 / 2))) :=
  ⟨(claim_C3_result_filter pushU initU [gStar] 1 none).1 gStar (Or.inr (Or.inl rfl)),
   (claim_C3_result_filter pushU initU [g0] 1 none).2 r0 (by decide)⟩

/-- C4: for every board position, including boards with a missing king,
the Feature Extractor output has exactly the fixed key schema
`featureKeys`, so every row has an identical schema and absent
structural elements populate defaults rather than dropping keys. -/
theorem claim_C4_fixed_schema (b : Board) :
    (extract_board_features b).map Prod.fst = featureKeys :=
  extract_keys b

/-- C5: a game whose rating header for either side is missing (so the
header default is the empty string), empty, the placeholder question
mark, or unparseable as an integer contributes no row (first conjunct);
the skip is silent, leaving the scan of the remaining games unchanged
(second conjunct); and every emitted row comes from a game whose two
ratings passed the filters and parsed (third conjunct). -/
theorem claim_C5_rating_filter {M : Type} (push : Board → M → Board)
    (initB : Game M → Board) (games : List (Game M)) (targetMove : Nat)
    (maxGames : Option Nat) :
    (∀ g : Game M,
        (g.whiteElo.getD "" = "" ∨ g.blackElo.getD "" = "" ∨
         g.whiteElo.getD "" = "?" ∨ g.blackElo.getD "" = "?" ∨
         pythonInt (g.whiteElo.getD "") = none ∨
         pythonInt (g.blackElo.getD "") = none) →
        processGame push initB targetMove g = none) ∧
    (∀ (g : Game M) (rest : List (Game M)),
        processGame push initB targetMove g = none →
        processPgnFile push initB (g :: rest) targetMove maxGames =
          processPgnFile push initB rest targetMove maxGames) ∧
    (∀ r ∈ processPgnFile push initB games targetMove maxGames,
        ∃ g ∈ games, ∃ w bl : Int,
          pythonInt (g.whiteElo.getD "") = some w ∧
          pythonInt (g.blackElo.getD "") = some bl ∧
          g.whiteElo.getD "" ≠ "" ∧ g.whiteElo.getD "" ≠ "?" ∧
          g.blackElo.getD "" ≠ "" ∧ g.blackElo.getD "" ≠ "?") := by
  refine ⟨?_, ?_, ?_⟩
  · intro g hbad
    cases hpg : processGame push initB targetMove g with
    | none => rfl
    | some r =>
      obtain ⟨-, t, -, h2, h3, h4, h5, w, bl, hw, hbl, -, -⟩ := processGame_some_inv hpg
      exfalso
      rcases hbad with hb | hb | hb | hb | hb | hb
      · exact h2 hb
      · exact h3 hb
      · exact h4 hb
      · exact h5 hb
      · rw [hb] at hw
        cases hw
      · rw [hb] at hbl
        cases hbl
  · intro g rest hg
    exact processPgnFileAux_skip push initB targetMove maxGames g rest 0 hg
  · intro r hr
    obtain ⟨g, hgmem, hpg⟩ := mem_processPgnFileAux push initB targetMove maxGames games 0 r hr
    obtain ⟨-, t, -, h2, h3, h4, h5, w, bl, hw, hbl, -, -⟩ := processGame_some_inv hpg
    exact ⟨g, hgmem, w, bl, hw, hbl, h2, h4, h3, h5⟩

/-- Witness for C5: the game with a question-mark white rating is
skipped and leaves the scan unchanged, while the row of `g0` comes with
both ratings parsed. -/
theorem claim_C5_rating_filter_witness :
    processGame pushU initU 1 gNoElo = none ∧
    processPgnFile pushU initU (gNoElo :: [g0]) 1 none =
      processPgnFile pushU initU [g0] 1 none ∧
    (∃ g ∈ [g0], ∃ w bl : Int,
      pythonInt (g.whiteElo.getD "") = some w ∧
      pythonInt (g.blackElo.getD "") = some bl ∧
      g.whiteElo.getD "" ≠ "" ∧ g.whiteElo.getD "" ≠ "?" ∧
      g.blackElo.getD "" ≠ "" ∧ g.blackElo.getD "" ≠ "?") :=
  ⟨(claim_C5_rating_filter pushU initU [gNoElo] 1 none).1 gNoElo
     (Or.inr (Or.inr (Or.inl rfl))),
   (claim_C5_rating_filter pushU initU [g0] 1 none).2.1 gNoElo [g0] (by decide),
   (claim_C5_rating_filter pushU initU [g0] 1 none).2.2 r0 (by decide)⟩

/-- C6: for every board position, the material_diff feature equals
white_material minus black_material exactly, where each color material
is `materialOf`, the sum of the fixed per-piece point values over that
color pieces; the value table is pawn 1, knight 3, bishop 3, rook 5,
queen 9, king 0.  The subtraction is over the integers, so negative
differences are included. -/
theorem claim_C6_material_diff (b : Board) :
    List.lookup "material_diff" (extract_board_features b) =
      some (materialOf b .white - materialOf b .black) ∧
    List.lookup "white_material" (extract_board_features b) = some (materialOf b .white) ∧
    List.lookup "black_material" (extract_board_features b) = some (materialOf b .black) ∧
    piece_values .pawn = 1 ∧ piece_values .knight = 3 ∧ piece_values .bishop = 3 ∧
    piece_values .rook = 5 ∧ piece_values .queen = 9 ∧ piece_values .king = 0 := by
  refine ⟨?_, ?_, ?_, rfl, rfl, rfl, rfl, rfl, rfl⟩ <;>
    simp [extract_board_features, get_material_features, List.lookup]

/-- C7: for every board position the emitted pawn-shield features are
integers in the interval from 0 to 3; the scan sums at most one pawn
per file (`scanRanks` is 0 or 1) over the three file offsets, so the
scan itself is bounded by 3 for every color and king square. -/
theorem claim_C7_shield_bounds (b : Board) :
    (∃ v, List.lookup "white_pawn_shield" (extract_board_features b) = some v ∧
       0 ≤ v ∧ v ≤ 3) ∧
    (∃ v, List.lookup "black_pawn_shield" (extract_board_features b) = some v ∧
       0 ≤ v ∧ v ≤ 3) ∧
    (∀ c ksq, pawnShield b c ksq ≤ 3) ∧
    (∀ c f ranks, scanRanks b c f ranks ≤ 1) :=
  ⟨⟨whiteShieldVal b, lookup_white_shield b,
     (whiteShieldVal_bounds b).1, (whiteShieldVal_bounds b).2⟩,
   ⟨blackShieldVal b, lookup_black_shield b,
     (blackShieldVal_bounds b).1, (blackShieldVal_bounds b).2⟩,
   fun c ksq => pawnShield_le_three b c ksq,
   fun c f ranks => scanRanks_le_one b c f ranks⟩

/-- C8: on the standard starting position the extractor reports 39
material points for each side, zero material difference, and a
pawn-shield count of exactly 3 for both colors. -/
theorem claim_C8_start_position :
    List.lookup "white_material" (extract_board_features startBoard) = some 39 ∧
    List.lookup "black_material" (extract_board_features startBoard) = some 39 ∧
    List.lookup "material_diff" (extract_board_features startBoard) = some 0 ∧
    List.lookup "white_pawn_shield" (extract_board_features startBoard) = some 3 ∧
    List.lookup "black_pawn_shield" (extract_board_features startBoard) = some 3 := by
  decide

/-- C9: with a positive cap `m`, the Dataset is the first `m` rows of
the uncapped scan (so rows come one per qualifying game in scan order
and scanning stops at the cap), hence it has at most `m` rows; and with
cap 1 a stream containing at least one qualifying game yields exactly
one row. -/
theorem claim_C9_cap {M : Type} (push : Board → M → Board) (initB : Game M → Board)
    (games : List (Game M)) (targetMove : Nat) (m : Nat) (hm : 0 < m) :
    processPgnFile push initB games targetMove (some m) =
      (processPgnFile push initB games targetMove none).take m ∧
    (processPgnFile push initB games targetMove (some m)).length ≤ m ∧
    ((∃ g ∈ games, processGame push initB targetMove g ≠ none) →
      (processPgnFile push initB games targetMove (some 1)).length = 1) := by
  have h1 : processPgnFile push initB games targetMove (some m) =
      (processPgnFile push initB games targetMove none).take m := by
    unfold processPgnFile
    have h := processPgnFileAux_cap_take push initB targetMove m games 0 hm
    simpa using h
  refine ⟨h1, ?_, ?_⟩
  · rw [h1, List.length_take]
    exact min_le_left _ _
  · intro hex
    unfold processPgnFile
    have ht := processPgnFileAux_cap_take push initB targetMove 1 games 0 Nat.one_pos
    simp only [Nat.sub_zero] at ht
    rw [ht]
    have hne := processPgnFileAux_none_ne_nil push initB targetMove games 0 hex
    cases hl : processPgnFileAux push initB targetMove none games 0 with
    | nil => exact absurd hl hne
    | cons a l => simp

/-- Witness for C9: on the two-qualifying-game stream, cap 1 keeps the
first row only and yields exactly one row. -/
theorem claim_C9_cap_witness :
    0 < 1 ∧
    processPgnFile pushU initU [g0, gDraw] 1 (some 1) =
      (processPgnFile pushU initU [g0, gDraw] 1 none).take 1 ∧
    (processPgnFile pushU initU [g0, gDraw] 1 (some 1)).length = 1 :=
  ⟨Nat.one_pos,
   (claim_C9_cap pushU initU [g0, gDraw] 1 1 Nat.one_pos).1,
   (claim_C9_cap pushU initU [g0, gDraw] 1 1 Nat.one_pos).2.2 (by decide)⟩

/-- C10: passing a cap of 0 disables the acceptance cap entirely, as
passing no cap does, because the Python guard tests the truthiness of
the cap value: the scan with cap 0 equals the uncapped scan for every
stream, not the empty Dataset. -/
theorem claim_C10_cap_zero {M : Type} (push : Board → M → Board)
    (initB : Game M → Board) (games : List (Game M)) (targetMove : Nat) :
    processPgnFile push initB games targetMove (some 0) =
      processPgnFile push initB games targetMove none :=
  processPgnFileAux_cap_zero push initB targetMove games 0

end ReadPgn
